import Mathlib

/-!
Verification of the Redis-backed middleware core
(src/apps/backend/services/redis.ts and src/apps/backend/middleware/redis.ts).

The backing store is modelled as an association list from keys to a stored
string together with an optional TTL (in seconds); a `Bool` flag `up` models
whether the transport to the store is healthy (`false` makes every store
operation throw, as a network timeout would).  JavaScript numbers reaching
`parseInt` are modelled as `Option Int`, with `none` playing the role of
`NaN` (every comparison against `NaN` is false, and `NaN + 1` is `NaN`).
`JSON.stringify` / `JSON.parse` are external platform collaborators; they are
modelled by an executable serializer and parser over an inductive `Json`
document type (integers, strings with quote/backslash escaping, arrays,
objects, booleans, null; decimal integers only, no floats, and no whitespace
handling inside serialized documents — the repository only ever round-trips
values produced by `JSON.stringify`, which emits none).
-/

namespace RedisCore

/-! ### Decimal strings: the model of `Number.prototype.toString` and `parseInt` -/

/-- Character for a single decimal digit. -/
def digToChar : Nat → Char
  | 0 => '0'
  | 1 => '1'
  | 2 => '2'
  | 3 => '3'
  | 4 => '4'
  | 5 => '5'
  | 6 => '6'
  | 7 => '7'
  | 8 => '8'
  | 9 => '9'
  | _ => 'X'

/-- Numeric value of a decimal digit character. -/
def digVal (c : Char) : Nat := c.toNat - 48

/-- Is the character a decimal digit? -/
def isDigitChar (c : Char) : Bool := 48 ≤ c.toNat && c.toNat ≤ 57

/-- Whitespace characters skipped by JavaScript `parseInt`. -/
def isWsChar (c : Char) : Bool :=
  c.toNat = 32 || c.toNat = 9 || c.toNat = 10 || c.toNat = 13

/-- Decimal digits of `n`, most significant first (`[]` for `0`).  Fuel-based
so that the definition is structurally recursive and reduces definitionally;
any fuel above `n` gives the same answer (`natToChars_fuel`). -/
def natToChars : Nat → Nat → List Char
  | 0, _ => []
  | f + 1, n => if n = 0 then [] else natToChars f (n / 10) ++ [digToChar (n % 10)]

/-- Canonical digit list of `n` (empty for `0`). -/
def natChars (n : Nat) : List Char := natToChars (n + 1) n

/-- Decimal rendering of a natural number, `"0"` included. -/
def natChars0 (n : Nat) : List Char := if n = 0 then ['0'] else natChars n

/-- Decimal rendering of an integer, as JavaScript `toString` produces it. -/
def intChars (i : Int) : List Char :=
  if i < 0 then '-' :: natChars i.natAbs else natChars0 i.toNat

/-- The string JavaScript produces for `(i).toString()`. -/
def intToString (i : Int) : String := String.mk (intChars i)

/-- Skip leading whitespace. -/
def skipWs : List Char → List Char
  | [] => []
  | c :: cs => if isWsChar c then skipWs cs else c :: cs

/-- Longest digit run at the head of the input, and the rest. -/
def takeDigits : List Char → List Char × List Char
  | [] => ([], [])
  | c :: cs =>
    if isDigitChar c then
      let p := takeDigits cs
      (c :: p.1, p.2)
    else ([], c :: cs)

/-- Value of a digit list, most significant digit first. -/
def charsToNat (cs : List Char) : Nat :=
  cs.foldl (fun a c => a * 10 + digVal c) 0

/-- Leading digit run interpreted as a number; `none` when there is no digit
(`parseInt` would give `NaN`). -/
def digitsVal (cs : List Char) : Option Nat :=
  let p := takeDigits cs
  if p.1 = [] then none else some (charsToNat p.1)

/-- Model of JavaScript `parseInt(s)` (decimal): skip whitespace, optional
sign, then the longest digit run, ignoring everything after it; `none` for
`NaN`.  (The legacy octal/hex prefixes are not modelled; no value written by
this repository uses them.) -/
def jsParseInt (s : String) : Option Int :=
  match skipWs s.data with
  | '-' :: rest => (digitsVal rest).map (fun n => -(n : Int))
  | '+' :: rest => (digitsVal rest).map (fun n => (n : Int))
  | cs => (digitsVal cs).map (fun n => (n : Int))

/-- True when the input does not begin with a digit, so that a digit run
ending right before it is maximal. -/
def digitBoundary : List Char → Bool
  | [] => true
  | c :: _ => !isDigitChar c

theorem natToChars_fuel (n : Nat) :
    ∀ f g, n < f → n < g → natToChars f n = natToChars g n := by
  induction n using Nat.strong_induction_on with
  | _ n ih =>
    intro f g hf hg
    match f, g with
    | f' + 1, g' + 1 =>
      by_cases h0 : n = 0
      · simp [natToChars, h0]
      · have hd : n / 10 < n := Nat.div_lt_self (Nat.pos_of_ne_zero h0) (by norm_num)
        simp only [natToChars, if_neg h0]
        rw [ih (n / 10) hd f' g' (by omega) (by omega)]

theorem natToChars_eq_natChars (f n : Nat) (h : n < f) :
    natToChars f n = natChars n :=
  natToChars_fuel n f (n + 1) h (Nat.lt_succ_self n)

theorem natChars_step (n : Nat) (h : n ≠ 0) :
    natChars n = natChars (n / 10) ++ [digToChar (n % 10)] := by
  have hd : n / 10 < n := Nat.div_lt_self (Nat.pos_of_ne_zero h) (by norm_num)
  show natToChars (n + 1) n = _
  simp only [natToChars, if_neg h]
  rw [natToChars_eq_natChars n (n / 10) (by omega)]

theorem natChars_ne_nil (n : Nat) (h : n ≠ 0) : natChars n ≠ [] := by
  rw [natChars_step n h]
  simp

theorem digToChar_digit (d : Nat) (h : d < 10) : isDigitChar (digToChar d) = true := by
  interval_cases d <;> decide

theorem digVal_digToChar (d : Nat) (h : d < 10) : digVal (digToChar d) = d := by
  interval_cases d <;> decide

theorem natChars_digits (n : Nat) : ∀ c ∈ natChars n, isDigitChar c = true := by
  induction n using Nat.strong_induction_on with
  | _ n ih =>
    intro c hc
    by_cases h0 : n = 0
    · subst h0; simp [natChars, natToChars] at hc
    · rw [natChars_step n h0] at hc
      rcases List.mem_append.mp hc with h | h
      · exact ih (n / 10) (Nat.div_lt_self (Nat.pos_of_ne_zero h0) (by norm_num)) c h
      · rcases List.mem_singleton.mp h with rfl
        exact digToChar_digit (n % 10) (Nat.mod_lt n (by norm_num))

theorem charsToNat_snoc (cs : List Char) (c : Char) :
    charsToNat (cs ++ [c]) = charsToNat cs * 10 + digVal c := by
  simp [charsToNat, List.foldl_append]

theorem charsToNat_natChars (n : Nat) : charsToNat (natChars n) = n := by
  induction n using Nat.strong_induction_on with
  | _ n ih =>
    by_cases h0 : n = 0
    · subst h0; rfl
    · rw [natChars_step n h0, charsToNat_snoc,
        ih (n / 10) (Nat.div_lt_self (Nat.pos_of_ne_zero h0) (by norm_num)),
        digVal_digToChar (n % 10) (Nat.mod_lt n (by norm_num))]
      omega

theorem takeDigits_append (ds rest : List Char)
    (hds : ∀ c ∈ ds, isDigitChar c = true) (hrest : digitBoundary rest = true) :
    takeDigits (ds ++ rest) = (ds, rest) := by
  induction ds with
  | nil =>
    cases rest with
    | nil => rfl
    | cons c cs =>
      simp only [digitBoundary, Bool.not_eq_true'] at hrest
      simp [takeDigits, hrest]
  | cons d ds' ih =>
    have hd : isDigitChar d = true := hds d (by simp)
    have := ih (fun c hc => hds c (by simp [hc]))
    simp [takeDigits, hd, this]

theorem digitsVal_natChars0 (n : Nat) : digitsVal (natChars0 n) = some n := by
  by_cases h0 : n = 0
  · subst h0; rfl
  · have happ : natChars0 n = natChars n ++ [] := by simp [natChars0, h0]
    rw [happ]
    simp only [digitsVal, takeDigits_append (natChars n) [] (natChars_digits n) rfl]
    simp [natChars_ne_nil n h0, charsToNat_natChars]

theorem natChars0_ne_nil (n : Nat) : natChars0 n ≠ [] := by
  by_cases h0 : n = 0
  · simp [natChars0, h0]
  · simp only [natChars0, if_neg h0]
    exact natChars_ne_nil n h0

theorem natChars0_head_digit (n : Nat) (c : Char) (cs : List Char)
    (h : natChars0 n = c :: cs) : isDigitChar c = true := by
  by_cases h0 : n = 0
  · subst h0
    simp only [natChars0, if_pos rfl] at h
    cases h
    decide
  · simp only [natChars0, if_neg h0] at h
    exact natChars_digits n c (h ▸ by simp)

theorem digit_not_ws (c : Char) (h : isDigitChar c = true) : isWsChar c = false := by
  simp only [isDigitChar, Bool.and_eq_true, decide_eq_true_eq] at h
  simp only [isWsChar, Bool.or_eq_false_iff, decide_eq_false_iff_not]
  omega

theorem skipWs_no_ws (c : Char) (cs : List Char) (h : isWsChar c = false) :
    skipWs (c :: cs) = c :: cs := by
  simp [skipWs, h]

theorem digit_not_sign (c : Char) (h : isDigitChar c = true) :
    c ≠ '-' ∧ c ≠ '+' := by
  simp only [isDigitChar, Bool.and_eq_true, decide_eq_true_eq] at h
  constructor <;> intro he <;> subst he <;> revert h <;> decide

theorem jsParseInt_natChars0 (n : Nat) :
    jsParseInt (String.mk (natChars0 n)) = some (n : Int) := by
  obtain ⟨c, cs, hcons⟩ : ∃ c cs, natChars0 n = c :: cs := by
    cases hh : natChars0 n with
    | nil => exact absurd hh (natChars0_ne_nil n)
    | cons c cs => exact ⟨c, cs, rfl⟩
  have hdig : isDigitChar c = true := natChars0_head_digit n c cs hcons
  have hsign := digit_not_sign c hdig
  show jsParseInt ⟨natChars0 n⟩ = some (n : Int)
  simp only [jsParseInt, hcons, skipWs_no_ws c cs (digit_not_ws c hdig)]
  have hval : digitsVal (c :: cs) = some n := by
    rw [← hcons]; exact digitsVal_natChars0 n
  match hc : c, hsign with
  | c, ⟨h1, h2⟩ =>
    split
    · next heq => cases heq; exact absurd rfl h1
    · next heq => cases heq; exact absurd rfl h2
    · simp [hval]

theorem jsParseInt_intToString (i : Int) (h : 0 ≤ i) :
    jsParseInt (intToString i) = some i := by
  have hneg : ¬ i < 0 := by omega
  simp only [intToString, intChars, if_neg hneg]
  rw [jsParseInt_natChars0 i.toNat, Int.toNat_of_nonneg h]

theorem intToString_ne_empty (i : Int) : intToString i ≠ "" := by
  intro he
  have : intChars i = [] := congrArg String.data he
  by_cases hneg : i < 0
  · simp [intChars, hneg] at this
  · simp only [intChars, if_neg hneg] at this
    exact natChars0_ne_nil i.toNat this

/-! ### The JSON document model (`JSON.stringify` / `JSON.parse` collaborators) -/

/-- Double quote, backslash and the two braces, named to keep serialized
character data readable. -/
def dq : Char := Char.ofNat 34

/-- Backslash. -/
def bsl : Char := Char.ofNat 92

/-- Opening brace. -/
def obr : Char := Char.ofNat 123

/-- Closing brace. -/
def cbr : Char := Char.ofNat 125

/-- JSON documents: the model of the JSON-serializable values the repository
stores (sessions, cached responses). -/
inductive Json where
  | null : Json
  | bool (b : Bool) : Json
  | num (n : Int) : Json
  | str (s : String) : Json
  | arr (elems : List Json) : Json
  | obj (fields : List (String × Json)) : Json

/-- Escape one character of a string body: quote and backslash get a
backslash, everything else is copied verbatim. -/
def escChar (c : Char) : List Char :=
  if c = dq || c = bsl then [bsl, c] else [c]

/-- Escape a whole string body. -/
def escChars : List Char → List Char
  | [] => []
  | c :: cs => escChar c ++ escChars cs

/-- Serialized form of a JSON string: quote, escaped body, quote. -/
def serStr (s : String) : List Char := dq :: (escChars s.data ++ [dq])

/-- Characters of the keyword `null`. -/
def nullChars : List Char := ['n', 'u', 'l', 'l']

/-- Characters of the keyword `true`. -/
def trueChars : List Char := ['t', 'r', 'u', 'e']

/-- Characters of the keyword `false`. -/
def falseChars : List Char := ['f', 'a', 'l', 's', 'e']

mutual

/-- Serializer for a JSON value (the model of `JSON.stringify`). -/
def serJson : Json → List Char
  | .null => nullChars
  | .bool true => trueChars
  | .bool false => falseChars
  | .num i => intChars i
  | .str s => serStr s
  | .arr es => '[' :: (serArrEls es ++ [']'])
  | .obj fs => obr :: (serObjFs fs ++ [cbr])

/-- Serializer for the comma-separated element list of an array. -/
def serArrEls : List Json → List Char
  | [] => []
  | [j] => serJson j
  | j :: js => serJson j ++ ',' :: serArrEls js

/-- Serializer for the comma-separated field list of an object. -/
def serObjFs : List (String × Json) → List Char
  | [] => []
  | [(k, v)] => serStr k ++ ':' :: serJson v
  | (k, v) :: fs => serStr k ++ ':' :: serJson v ++ ',' :: serObjFs fs

end

/-- The model of `JSON.stringify`. -/
def jsonStringify (j : Json) : String := String.mk (serJson j)

/-- String body parser: consumes up to the closing quote, undoing the
backslash escapes; structural on the input. -/
def parseStrBody : List Char → Option (List Char × List Char)
  | [] => none
  | c :: cs =>
    if c = dq then some ([], cs)
    else if c = bsl then
      match cs with
      | [] => none
      | e :: cs2 => (parseStrBody cs2).map (fun p => (e :: p.1, p.2))
    else (parseStrBody cs).map (fun p => (c :: p.1, p.2))

/-- Drop an expected literal run of characters. -/
def dropRun : List Char → List Char → Option (List Char)
  | [], cs => some cs
  | _ :: _, [] => none
  | p :: ps, c :: cs => if c = p then dropRun ps cs else none

/-- Leading digit run as a number together with the rest of the input. -/
def parseNum (cs : List Char) : Option (Nat × List Char) :=
  let p := takeDigits cs
  if p.1 = [] then none else some (charsToNat p.1, p.2)

/-- Parser modes: a single value, the tail of an array (elements up to the
closing bracket), or the tail of an object (fields up to the closing brace). -/
inductive PMode where
  | v : PMode
  | a : PMode
  | o : PMode

/-- Fuel-based JSON parser (the model of `JSON.parse`), structurally
recursive on the fuel so that it reduces definitionally.  Mode `.a` is
entered after `[` when the array is nonempty, mode `.o` after the opening
brace when the object is nonempty; both consume the closing delimiter. -/
def parseJ : Nat → PMode → List Char → Option (Json × List Char)
  | 0, _, _ => none
  | f + 1, .v, cs =>
    match cs with
    | [] => none
    | c :: rest =>
      if c = 'n' then (dropRun ['u', 'l', 'l'] rest).map (fun r => (.null, r))
      else if c = 't' then (dropRun ['r', 'u', 'e'] rest).map (fun r => (.bool true, r))
      else if c = 'f' then (dropRun ['a', 'l', 's', 'e'] rest).map (fun r => (.bool false, r))
      else if c = dq then (parseStrBody rest).map (fun p => (.str (String.mk p.1), p.2))
      else if c = '[' then
        match rest with
        | [] => none
        | c2 :: r2 => if c2 = ']' then some (.arr [], r2) else parseJ f .a rest
      else if c = obr then
        match rest with
        | [] => none
        | c2 :: r2 => if c2 = cbr then some (.obj [], r2) else parseJ f .o rest
      else if c = '-' then (parseNum rest).map (fun p => (.num (-(p.1 : Int)), p.2))
      else if isDigitChar c then (parseNum cs).map (fun p => (.num (p.1 : Int), p.2))
      else none
  | f + 1, .a, cs =>
    match parseJ f .v cs with
    | none => none
    | some (j, r) =>
      match r with
      | [] => none
      | c :: r2 =>
        if c = ',' then
          match parseJ f .a r2 with
          | some (Json.arr js, r3) => some (.arr (j :: js), r3)
          | _ => none
        else if c = ']' then some (.arr [j], r2)
        else none
  | f + 1, .o, cs =>
    match cs with
    | [] => none
    | c :: rest =>
      if c = dq then
        match parseStrBody rest with
        | none => none
        | some (kcs, r) =>
          match r with
          | [] => none
          | c2 :: r2 =>
            if c2 = ':' then
              match parseJ f .v r2 with
              | none => none
              | some (v, r3) =>
                match r3 with
                | [] => none
                | c3 :: r4 =>
                  if c3 = ',' then
                    match parseJ f .o r4 with
                    | some (Json.obj fs, r5) => some (.obj ((String.mk kcs, v) :: fs), r5)
                    | _ => none
                  else if c3 = cbr then some (.obj [(String.mk kcs, v)], r4)
                  else none
            else none
      else none

/-- The model of `JSON.parse`: parse one value and require the whole input to
be consumed; `none` models the `SyntaxError` throw. -/
def jsonParse (s : String) : Option Json :=
  match parseJ (2 * s.data.length + 2) .v s.data with
  | some (j, []) => some j
  | _ => none

/-! ### Round trip: `jsonParse` undoes `jsonStringify` -/

/-! ### Round trip: `jsonParse` undoes `jsonStringify` -/

theorem parseStrBody_escape (cs : List Char) :
    ∀ rest, parseStrBody (escChars cs ++ (dq :: rest)) = some (cs, rest) := by
  induction cs with
  | nil =>
    intro rest
    show parseStrBody (dq :: rest) = some ([], rest)
    rw [parseStrBody.eq_def]
    simp
  | cons c cs' ih =>
    intro rest
    by_cases hc : c = dq ∨ c = bsl
    · have hesc : escChar c = [bsl, c] := by
        rcases hc with h | h <;> simp [escChar, h]
      show parseStrBody (escChar c ++ escChars cs' ++ (dq :: rest)) = _
      rw [hesc]
      show parseStrBody (bsl :: (c :: (escChars cs' ++ (dq :: rest)))) = _
      rw [parseStrBody.eq_def]
      have h1 : ¬ bsl = dq := by decide
      simp [h1, ih rest]
    · push_neg at hc
      have hesc : escChar c = [c] := by simp [escChar, hc.1, hc.2]
      show parseStrBody (escChar c ++ escChars cs' ++ (dq :: rest)) = _
      rw [hesc]
      show parseStrBody (c :: (escChars cs' ++ (dq :: rest))) = _
      rw [parseStrBody.eq_def]
      simp [hc.1, hc.2, ih rest]

theorem serJson_ne_nil (j : Json) : serJson j ≠ [] := by
  cases j with
  | null => simp [serJson, nullChars]
  | bool b => cases b <;> simp [serJson, trueChars, falseChars]
  | num i =>
    simp only [serJson, intChars]
    by_cases h : i < 0
    · simp [h]
    · simp only [if_neg h]
      exact natChars0_ne_nil i.toNat
  | str s => simp [serJson, serStr]
  | arr es => simp [serJson]
  | obj fs => simp [serJson]

theorem serJson_cons (j : Json) : ∃ c t, serJson j = c :: t := by
  cases hh : serJson j with
  | nil => exact absurd hh (serJson_ne_nil j)
  | cons c t => exact ⟨c, t, rfl⟩

theorem serJson_head_ne_close (j : Json) (c : Char) (t : List Char)
    (h : serJson j = c :: t) : c ≠ ']' ∧ c ≠ cbr := by
  cases j with
  | null => cases h; decide
  | bool b => cases b <;> cases h <;> decide
  | num i =>
    simp only [serJson, intChars] at h
    by_cases hneg : i < 0
    · rw [if_pos hneg] at h
      cases h; decide
    · rw [if_neg hneg] at h
      have hd : isDigitChar c = true := natChars0_head_digit i.toNat c t h
      constructor <;> intro he <;> subst he <;> exact absurd hd (by decide)
  | str s => cases h; decide
  | arr es => cases h; decide
  | obj fs => cases h; decide

theorem digit_dispatch (c : Char) (h : isDigitChar c = true) :
    c ≠ 'n' ∧ c ≠ 't' ∧ c ≠ 'f' ∧ c ≠ dq ∧ c ≠ '[' ∧ c ≠ obr ∧ c ≠ '-' := by
  refine ⟨?_, ?_, ?_, ?_, ?_, ?_, ?_⟩ <;>
    intro he <;> subst he <;> exact absurd h (by decide)

theorem natChars0_digits (n : Nat) : ∀ c ∈ natChars0 n, isDigitChar c = true := by
  by_cases h0 : n = 0
  · subst h0; intro c hc; simp [natChars0] at hc; subst hc; decide
  · simp only [natChars0, if_neg h0]
    exact natChars_digits n

theorem charsToNat_natChars0 (n : Nat) : charsToNat (natChars0 n) = n := by
  by_cases h0 : n = 0
  · subst h0; rfl
  · simp only [natChars0, if_neg h0]
    exact charsToNat_natChars n

theorem parseNum_run (n : Nat) (rest : List Char) (hrest : digitBoundary rest = true) :
    parseNum (natChars0 n ++ rest) = some (n, rest) := by
  simp only [parseNum, takeDigits_append (natChars0 n) rest (natChars0_digits n) hrest]
  simp [natChars0_ne_nil n, charsToNat_natChars0]

theorem stringMk_data (s : String) : String.mk s.data = s := rfl

theorem parseJ_v_step (f : Nat) (c : Char) (rest : List Char) :
    parseJ (f + 1) .v (c :: rest) =
      (if c = 'n' then (dropRun ['u', 'l', 'l'] rest).map (fun r => (Json.null, r))
      else if c = 't' then (dropRun ['r', 'u', 'e'] rest).map (fun r => (Json.bool true, r))
      else if c = 'f' then
        (dropRun ['a', 'l', 's', 'e'] rest).map (fun r => (Json.bool false, r))
      else if c = dq then (parseStrBody rest).map (fun p => (Json.str (String.mk p.1), p.2))
      else if c = '[' then
        match rest with
        | [] => none
        | c2 :: r2 => if c2 = ']' then some (Json.arr [], r2) else parseJ f .a rest
      else if c = obr then
        match rest with
        | [] => none
        | c2 :: r2 => if c2 = cbr then some (Json.obj [], r2) else parseJ f .o rest
      else if c = '-' then (parseNum rest).map (fun p => (Json.num (-(p.1 : Int)), p.2))
      else if isDigitChar c then
        (parseNum (c :: rest)).map (fun p => (Json.num (p.1 : Int), p.2))
      else none) := rfl

theorem parseJ_a_step (f : Nat) (cs : List Char) :
    parseJ (f + 1) .a cs =
      match parseJ f .v cs with
      | none => none
      | some (j, r) =>
        match r with
        | [] => none
        | c :: r2 =>
          if c = ',' then
            match parseJ f .a r2 with
            | some (Json.arr js, r3) => some (Json.arr (j :: js), r3)
            | _ => none
          else if c = ']' then some (Json.arr [j], r2)
          else none := rfl

theorem parseJ_o_step (f : Nat) (cs : List Char) :
    parseJ (f + 1) .o cs =
      match cs with
      | [] => none
      | c :: rest =>
        if c = dq then
          match parseStrBody rest with
          | none => none
          | some (kcs, r) =>
            match r with
            | [] => none
            | c2 :: r2 =>
              if c2 = ':' then
                match parseJ f .v r2 with
                | none => none
                | some (v, r3) =>
                  match r3 with
                  | [] => none
                  | c3 :: r4 =>
                    if c3 = ',' then
                      match parseJ f .o r4 with
                      | some (Json.obj fs, r5) => some (Json.obj ((String.mk kcs, v) :: fs), r5)
                      | _ => none
                    else if c3 = cbr then some (Json.obj [(String.mk kcs, v)], r4)
                    else none
              else none
        else none := rfl

theorem parseJ_v_openArr (f : Nat) (c2 : Char) (r2 : List Char) (h : ¬ c2 = ']') :
    parseJ (f + 1) .v ('[' :: c2 :: r2) = parseJ f .a (c2 :: r2) := by
  show (if c2 = ']' then some (Json.arr [], r2) else parseJ f .a (c2 :: r2)) = _
  rw [if_neg h]

theorem parseJ_v_openObj (f : Nat) (c2 : Char) (r2 : List Char) (h : ¬ c2 = cbr) :
    parseJ (f + 1) .v (obr :: c2 :: r2) = parseJ f .o (c2 :: r2) := by
  show (if c2 = cbr then some (Json.obj [], r2) else parseJ f .o (c2 :: r2)) = _
  rw [if_neg h]

theorem serArrEls_shape (j : Json) (js : List Json) (c : Char) (t : List Char)
    (h : serJson j = c :: t) : ∃ T, serArrEls (j :: js) = c :: T := by
  cases js with
  | nil => exact ⟨t, by simp [serArrEls, h]⟩
  | cons x xs => exact ⟨t ++ ',' :: serArrEls (x :: xs), by simp [serArrEls, h]⟩

mutual

theorem rtV (j : Json) : ∀ (f : Nat) (rest : List Char), digitBoundary rest = true →
    2 * ((serJson j).length + rest.length) + 1 ≤ f →
    parseJ f .v (serJson j ++ rest) = some (j, rest) := by
  intro f rest hrest hf
  match f, hf with
  | f' + 1, hf =>
    cases j with
    | null => rfl
    | bool b => cases b <;> rfl
    | num i =>
      by_cases hneg : i < 0
      · have harg : serJson (.num i) ++ rest = '-' :: (natChars0 i.natAbs ++ rest) := by
          have hz : i.natAbs ≠ 0 := by omega
          simp [serJson, intChars, if_pos hneg, natChars0, hz]
        rw [harg, parseJ_v_step]
        rw [if_neg (by decide : ¬('-' : Char) = 'n'),
          if_neg (by decide : ¬('-' : Char) = 't'),
          if_neg (by decide : ¬('-' : Char) = 'f'),
          if_neg (by decide : ¬('-' : Char) = dq),
          if_neg (by decide : ¬('-' : Char) = '['),
          if_neg (by decide : ¬('-' : Char) = obr), if_pos rfl]
        rw [parseNum_run i.natAbs rest hrest]
        show some (Json.num (-(i.natAbs : Int)), rest) = some (Json.num i, rest)
        have hio : -(i.natAbs : Int) = i := by omega
        rw [hio]
      · have harg : serJson (.num i) ++ rest = natChars0 i.toNat ++ rest := by
          simp [serJson, intChars, if_neg hneg]
        obtain ⟨c, t, hct⟩ : ∃ c t, natChars0 i.toNat = c :: t := by
          cases hh : natChars0 i.toNat with
          | nil => exact absurd hh (natChars0_ne_nil _)
          | cons c t => exact ⟨c, t, rfl⟩
        have hd : isDigitChar c = true := natChars0_head_digit i.toNat c t hct
        obtain ⟨h1, h2, h3, h4, h5, h6, h7⟩ := digit_dispatch c hd
        have hsplit : natChars0 i.toNat ++ rest = c :: (t ++ rest) := by
          rw [hct]; rfl
        rw [harg, hsplit, parseJ_v_step]
        rw [if_neg h1, if_neg h2, if_neg h3, if_neg h4, if_neg h5, if_neg h6, if_neg h7,
          if_pos hd]
        rw [← hsplit, parseNum_run i.toNat rest hrest]
        show some (Json.num ((i.toNat : Nat) : Int), rest) = some (Json.num i, rest)
        rw [Int.toNat_of_nonneg (by omega)]
    | str s =>
      have harg : serJson (.str s) ++ rest = dq :: (escChars s.data ++ (dq :: rest)) := by
        simp [serJson, serStr]
      rw [harg, parseJ_v_step]
      rw [if_neg (by decide : ¬ dq = 'n'), if_neg (by decide : ¬ dq = 't'),
        if_neg (by decide : ¬ dq = 'f'), if_pos rfl]
      rw [parseStrBody_escape s.data rest]
      rfl
    | arr es =>
      cases es with
      | nil => rfl
      | cons j js =>
        obtain ⟨c, t, hct⟩ := serJson_cons j
        have hc := (serJson_head_ne_close j c t hct).1
        obtain ⟨T, hT⟩ := serArrEls_shape j js c t hct
        have harg : serJson (.arr (j :: js)) ++ rest
            = '[' :: (serArrEls (j :: js) ++ ']' :: rest) := by
          simp [serJson]
        have hshape : serArrEls (j :: js) ++ ']' :: rest = c :: (T ++ ']' :: rest) := by
          rw [hT]; rfl
        rw [harg, hshape, parseJ_v_openArr f' c _ hc, ← hshape]
        apply rtA (j :: js) (by simp) f' rest
        have hlen : (serJson (.arr (j :: js))).length = (serArrEls (j :: js)).length + 2 := by
          simp [serJson]
        omega
    | obj fs =>
      cases fs with
      | nil => rfl
      | cons kv fs' =>
        obtain ⟨k, v⟩ := kv
        have hobj : ∃ T, serObjFs ((k, v) :: fs') = dq :: T := by
          cases fs' with
          | nil =>
            exact ⟨escChars k.data ++ [dq] ++ ':' :: serJson v, by
              simp [serObjFs, serStr, List.append_assoc]⟩
          | cons g gs =>
            exact ⟨escChars k.data ++ [dq] ++ (':' :: serJson v ++ ',' :: serObjFs (g :: gs)),
              by simp [serObjFs, serStr, List.append_assoc]⟩
        obtain ⟨T, hT⟩ := hobj
        have harg : serJson (.obj ((k, v) :: fs')) ++ rest
            = obr :: (serObjFs ((k, v) :: fs') ++ cbr :: rest) := by
          simp [serJson]
        have hshape : serObjFs ((k, v) :: fs') ++ cbr :: rest = dq :: (T ++ cbr :: rest) := by
          rw [hT]; rfl
        rw [harg, hshape, parseJ_v_openObj f' dq _ (by decide), ← hshape]
        apply rtO ((k, v) :: fs') (by simp) f' rest
        have hlen : (serJson (.obj ((k, v) :: fs'))).length
            = (serObjFs ((k, v) :: fs')).length + 2 := by
          simp [serJson]
        omega

theorem rtA (js : List Json) (hne : js ≠ []) : ∀ (f : Nat) (rest : List Char),
    2 * ((serArrEls js).length + rest.length) + 4 ≤ f →
    parseJ f .a (serArrEls js ++ ']' :: rest) = some (.arr js, rest) := by
  intro f rest hf
  match f, hf with
  | f' + 1, hf =>
    match js, hne with
    | [j], _ =>
      have hargs : serArrEls [j] ++ ']' :: rest = serJson j ++ ']' :: rest := by
        simp [serArrEls]
      have hv : parseJ f' .v (serJson j ++ ']' :: rest) = some (j, ']' :: rest) := by
        apply rtV j f' (']' :: rest) rfl
        have : (serArrEls [j]).length = (serJson j).length := by simp [serArrEls]
        simp only [List.length_cons]
        omega
      rw [hargs, parseJ_a_step, hv]
      have h1 : ¬(']' : Char) = ',' := by decide
      simp [h1]
    | j :: x :: xs, _ =>
      have hargs : serArrEls (j :: x :: xs) ++ ']' :: rest
          = serJson j ++ (',' :: (serArrEls (x :: xs) ++ ']' :: rest)) := by
        simp [serArrEls, List.append_assoc]
      have hflen : (serArrEls (j :: x :: xs)).length
          = (serJson j).length + 1 + (serArrEls (x :: xs)).length := by
        simp [serArrEls]
        omega
      have hv : parseJ f' .v (serJson j ++ (',' :: (serArrEls (x :: xs) ++ ']' :: rest)))
          = some (j, ',' :: (serArrEls (x :: xs) ++ ']' :: rest)) := by
        apply rtV j f' (',' :: (serArrEls (x :: xs) ++ ']' :: rest)) rfl
        simp only [List.length_cons, List.length_append]
        omega
      have htail : parseJ f' .a (serArrEls (x :: xs) ++ ']' :: rest)
          = some (.arr (x :: xs), rest) := by
        apply rtA (x :: xs) (by simp) f' rest
        omega
      rw [hargs, parseJ_a_step, hv]
      simp [htail]

theorem rtO (fs : List (String × Json)) (hne : fs ≠ []) : ∀ (f : Nat) (rest : List Char),
    2 * ((serObjFs fs).length + rest.length) + 4 ≤ f →
    parseJ f .o (serObjFs fs ++ cbr :: rest) = some (.obj fs, rest) := by
  intro f rest hf
  match f, hf with
  | f' + 1, hf =>
    match fs, hne with
    | [(k, v)], _ =>
      have hargs : serObjFs [(k, v)] ++ cbr :: rest
          = dq :: (escChars k.data ++ (dq :: (':' :: (serJson v ++ cbr :: rest)))) := by
        simp [serObjFs, serStr, List.append_assoc]
      have hklen : (serObjFs [(k, v)]).length
          = (escChars k.data).length + 3 + (serJson v).length := by
        simp [serObjFs, serStr]
        omega
      have hv : parseJ f' .v (serJson v ++ cbr :: rest) = some (v, cbr :: rest) := by
        apply rtV v f' (cbr :: rest) rfl
        simp only [List.length_cons]
        omega
      rw [hargs, parseJ_o_step]
      have h1 : ¬ cbr = ',' := by decide
      simp [parseStrBody_escape, hv, h1, stringMk_data]
    | (k, v) :: g :: gs, _ =>
      have hargs : serObjFs ((k, v) :: g :: gs) ++ cbr :: rest
          = dq :: (escChars k.data ++ (dq :: (':' ::
              (serJson v ++ (',' :: (serObjFs (g :: gs) ++ cbr :: rest)))))) := by
        simp [serObjFs, serStr, List.append_assoc]
      have hklen : (serObjFs ((k, v) :: g :: gs)).length
          = (escChars k.data).length + 3 + (serJson v).length + 1
            + (serObjFs (g :: gs)).length := by
        simp [serObjFs, serStr]
        omega
      have hv : parseJ f' .v (serJson v ++ (',' :: (serObjFs (g :: gs) ++ cbr :: rest)))
          = some (v, ',' :: (serObjFs (g :: gs) ++ cbr :: rest)) := by
        apply rtV v f' (',' :: (serObjFs (g :: gs) ++ cbr :: rest)) rfl
        simp only [List.length_cons, List.length_append]
        omega
      have htail : parseJ f' .o (serObjFs (g :: gs) ++ cbr :: rest)
          = some (.obj (g :: gs), rest) := by
        apply rtO (g :: gs) (by simp) f' rest
        omega
      rw [hargs, parseJ_o_step]
      simp [parseStrBody_escape, hv, htail, stringMk_data]

end

/-- Round trip: the parser undoes the serializer on every document. -/
theorem jsonParse_stringify (j : Json) : jsonParse (jsonStringify j) = some j := by
  have hdata : (jsonStringify j).data = serJson j := rfl
  have h := rtV j (2 * (serJson j).length + 2) [] rfl (by simp)
  simp only [List.append_nil] at h
  simp only [jsonParse, hdata, List.length_nil, h]

/-- A serialized document is never the empty string (so it is always truthy
where the source tests `if (cached)` / `session ?`). -/
theorem jsonStringify_ne_empty (j : Json) : jsonStringify j ≠ "" := by
  intro he
  exact serJson_ne_nil j (congrArg String.data he)

/-! ### The backing store and the Store Client boundary -/

/-- The backing store, observed through `get`: keys mapped to a stored string
and an optional TTL in seconds (`none` = no expiry set). -/
abbrev Store := List (String × String × Option Int)

/-- Redis `GET`. -/
def storeLookup : Store → String → Option (String × Option Int)
  | [], _ => none
  | (k2, v, t) :: rest, k => if k = k2 then some (v, t) else storeLookup rest k

/-- Redis `SET` / `SETEX`: replace the binding of a key (TTL included). -/
def storeInsert : Store → String → String → Option Int → Store
  | [], k, v, t => [(k, v, t)]
  | (k2, v2, t2) :: rest, k, v, t =>
    if k2 = k then (k, v, t) :: rest else (k2, v2, t2) :: storeInsert rest k v t

/-- Redis `DEL`: remove a key. -/
def storeErase : Store → String → Store
  | [], _ => []
  | (k2, v2, t2) :: rest, k =>
    if k2 = k then storeErase rest k else (k2, v2, t2) :: storeErase rest k

/-- Model of `RedisService.get` (services/redis.ts lines 59-61).  When the
transport is down (`up = false`) every operation rejects, which surfaces to
callers as a thrown error. -/
def svcGet (up : Bool) (s : Store) (k : String) : Except String (Option String) :=
  if up then .ok ((storeLookup s k).map Prod.fst) else .error "timeout"

/-- Model of `RedisService.set` (services/redis.ts lines 51-57): a truthy
`ttl` (any number other than 0) selects `SETEX`; `undefined` (here `none`)
or `0` select a plain `SET` with no expiry.  Redis rejects `SETEX` with a
non-positive expiry, which surfaces as a thrown error. -/
def svcSet (up : Bool) (s : Store) (k v : String) (ttl : Option Int) :
    Except String Store :=
  if up then
    match ttl with
    | none => .ok (storeInsert s k v none)
    | some t =>
      if t = 0 then .ok (storeInsert s k v none)
      else if t < 0 then .error "ERR invalid expire time in setex"
      else .ok (storeInsert s k v (some t))
  else .error "timeout"

/-- Model of `RedisService.del` (services/redis.ts lines 63-65): removes the
key and returns the number of keys removed. -/
def svcDel (up : Bool) (s : Store) (k : String) : Except String (Int × Store) :=
  if up then
    .ok ((if (storeLookup s k).isSome then 1 else 0), storeErase s k)
  else .error "timeout"

/-! ### The service utilities (sessions and the rate-limit counter) -/

/-- Model of `RedisService.cacheUserSession` (services/redis.ts lines
149-151): store the serialized document under `session:` with the given TTL. -/
def cacheUserSession (up : Bool) (s : Store) (userId : String) (doc : Json)
    (ttl : Int) : Except String Store :=
  svcSet up s ("session:" ++ userId) (jsonStringify doc) (some ttl)

/-- Model of `RedisService.getUserSession` (services/redis.ts lines 153-156):
`session ? JSON.parse(session) : null`.  There is no try/catch here, so a
failed `JSON.parse` propagates as an error to the caller. -/
def getUserSession (up : Bool) (s : Store) (userId : String) :
    Except String (Option Json) :=
  match svcGet up s ("session:" ++ userId) with
  | .error e => .error e
  | .ok none => .ok none
  | .ok (some v) =>
    if v = "" then .ok none
    else
      match jsonParse v with
      | some j => .ok (some j)
      | none => .error "SyntaxError"

/-- Model of `RedisService.invalidateUserSession` (services/redis.ts lines
158-160). -/
def invalidateUserSession (up : Bool) (s : Store) (userId : String) :
    Except String Store :=
  match svcDel up s ("session:" ++ userId) with
  | .error e => .error e
  | .ok (_, s2) => .ok s2

/-- Model of `RedisService.rateLimit` (services/redis.ts lines 162-172).
`count` is `Option Int` with `none` for `NaN` (a stored value with no leading
digits): `NaN >= limit` is false in JavaScript, so the `NaN` branch falls
through to the write, and `(NaN + 1).toString()` is the string `"NaN"`. -/
def svcRateLimit (up : Bool) (s : Store) (key : String) (limit window : Int) :
    Except String (Bool × Store) :=
  match svcGet up s key with
  | .error e => .error e
  | .ok current =>
    let count : Option Int :=
      match current with
      | none => some 0
      | some v => if v = "" then some 0 else jsParseInt v
    match count with
    | none =>
      match svcSet up s key "NaN" (some window) with
      | .error e => .error e
      | .ok s2 => .ok (true, s2)
    | some c =>
      if limit ≤ c then .ok (false, s)
      else
        match svcSet up s key (intToString (c + 1)) (some window) with
        | .error e => .error e
        | .ok s2 => .ok (true, s2)

/-- The count the source computes from a stored value:
`current ? parseInt(current) : 0` (absence and the empty string are 0;
`none` is `NaN`). -/
def readCount (s : Store) (k : String) : Option Int :=
  match (storeLookup s k).map Prod.fst with
  | none => some 0
  | some v => if v = "" then some 0 else jsParseInt v

/-! ### The middleware layer (middleware/redis.ts) -/

/-- Outcome of a guard middleware: pass the request on, or answer 429. -/
inductive MWResult where
  | next : MWResult
  | reject429 : MWResult

/-- Model of the `rateLimit` middleware factory applied to one request
(middleware/redis.ts lines 5-25): key `rate_limit:<ip>`, 429 when the service
rejects, and fail-open (`next()`) when the service throws. -/
def rateLimitMW (up : Bool) (limit window : Int) (ip : String) (s : Store) :
    MWResult × Store :=
  match svcRateLimit up s ("rate_limit:" ++ ip) limit window with
  | .ok (true, s2) => (.next, s2)
  | .ok (false, s2) => (.reject429, s2)
  | .error _ => (.next, s)

/-- Model of the `apiRateLimit` middleware factory applied to one request
(middleware/redis.ts lines 28-48): key `api_rate_limit:<userId>`, otherwise
as `rateLimitMW`. -/
def apiRateLimitMW (up : Bool) (limit window : Int) (userId : String) (s : Store) :
    MWResult × Store :=
  match svcRateLimit up s ("api_rate_limit:" ++ userId) limit window with
  | .ok (true, s2) => (.next, s2)
  | .ok (false, s2) => (.reject429, s2)
  | .error _ => (.next, s)

/-- Result of running the `cache` middleware together with the wrapped
handler on one request: the response sent, whether the handler ran, and the
resulting store. -/
structure CacheResult where
  response : Json
  handlerRan : Bool
  store : Store

/-- Model of the `cache` middleware applied to one request
(middleware/redis.ts lines 51-76), with `produce` the response the wrapped
handler would emit through `res.json`.  A truthy cached value is parsed and
served without running the handler; a `JSON.parse` throw is caught by the
middleware's catch and falls through to `next()` without installing the
caching override; a miss installs the override, so the handler's response is
written back (fire-and-forget: a failed write is swallowed and the response
is still sent). -/
def cacheRequest (up : Bool) (ttl : Int) (url : String) (produce : Json)
    (s : Store) : CacheResult :=
  let key := "cache:" ++ url
  match svcGet up s key with
  | .error _ => ⟨produce, true, s⟩
  | .ok cached =>
    match cached with
    | some v =>
      if v = "" then
        match svcSet up s key (jsonStringify produce) (some ttl) with
        | .ok s2 => ⟨produce, true, s2⟩
        | .error _ => ⟨produce, true, s⟩
      else
        match jsonParse v with
        | some j => ⟨j, false, s⟩
        | none => ⟨produce, true, s⟩
    | none =>
      match svcSet up s key (jsonStringify produce) (some ttl) with
      | .ok s2 => ⟨produce, true, s2⟩
      | .error _ => ⟨produce, true, s⟩

/-- Model of the `invalidateCache` middleware applied to one request
(middleware/redis.ts lines 100-114): delete `cache:<pattern>` and continue;
errors are caught and it continues anyway. -/
def invalidateCacheMW (up : Bool) (pattern : String) (s : Store) :
    MWResult × Store :=
  match svcDel up s ("cache:" ++ pattern) with
  | .ok (_, s2) => (.next, s2)
  | .error _ => (.next, s)

/-- Model of the `sessionMiddleware` applied to one request
(middleware/redis.ts lines 79-97): look up the session when a session id
header is present, attach it when truthy, and always continue; errors are
caught and it continues without a session. -/
def sessionMW (up : Bool) (s : Store) (sid : Option String) :
    MWResult × Option Json :=
  match sid with
  | none => (.next, none)
  | some id =>
    match getUserSession up s id with
    | .ok (some j) => (.next, some j)
    | .ok none => (.next, none)
    | .error _ => (.next, none)

/-- The `rateLimit` factory itself (middleware/redis.ts line 5): it performs
no validation of `limit` or `window` and unconditionally returns a middleware
closure; the `Except` records that the source has no rejection path at setup
time. -/
def rateLimitSetup (limit window : Int) : Except String (Int × Int) :=
  .ok (limit, window)

/-- The `apiRateLimit` factory (middleware/redis.ts line 28): no validation. -/
def apiRateLimitSetup (limit window : Int) : Except String (Int × Int) :=
  .ok (limit, window)

/-- The `cache` factory (middleware/redis.ts line 51): no validation. -/
def cacheSetup (ttl : Int) : Except String Int :=
  .ok ttl

/-! ### Store lemmas -/

theorem storeLookup_insert_self (s : Store) (k v : String) (t : Option Int) :
    storeLookup (storeInsert s k v t) k = some (v, t) := by
  induction s with
  | nil => simp [storeInsert, storeLookup]
  | cons e rest ih =>
    obtain ⟨k2, v2, t2⟩ := e
    by_cases h : k2 = k
    · subst h
      simp [storeInsert, storeLookup]
    · simp only [storeInsert, if_neg h, storeLookup]
      rw [if_neg (fun he => h he.symm), ih]

theorem storeLookup_insert_ne (s : Store) (k q v : String) (t : Option Int)
    (h : q ≠ k) : storeLookup (storeInsert s k v t) q = storeLookup s q := by
  induction s with
  | nil => simp [storeInsert, storeLookup, h]
  | cons e rest ih =>
    obtain ⟨k2, v2, t2⟩ := e
    by_cases h2 : k2 = k
    · subst h2
      simp only [storeInsert, if_pos rfl, storeLookup]
      rw [if_neg h, if_neg h]
    · simp only [storeInsert, if_neg h2, storeLookup]
      by_cases hq : q = k2
      · rw [if_pos hq, if_pos hq]
      · rw [if_neg hq, if_neg hq, ih]

theorem storeLookup_erase_self (s : Store) (k : String) :
    storeLookup (storeErase s k) k = none := by
  induction s with
  | nil => simp [storeErase, storeLookup]
  | cons e rest ih =>
    obtain ⟨k2, v2, t2⟩ := e
    by_cases h : k2 = k
    · simp only [storeErase, if_pos h]
      exact ih
    · simp only [storeErase, if_neg h, storeLookup]
      rw [if_neg (fun he => h he.symm), ih]

theorem storeLookup_erase_ne (s : Store) (k q : String) (h : q ≠ k) :
    storeLookup (storeErase s k) q = storeLookup s q := by
  induction s with
  | nil => simp [storeErase]
  | cons e rest ih =>
    obtain ⟨k2, v2, t2⟩ := e
    by_cases h2 : k2 = k
    · subst h2
      simp only [storeErase, if_true]
      rw [ih]
      simp only [storeLookup]
      rw [if_neg h]
    · simp only [storeErase, if_neg h2, storeLookup]
      by_cases hq : q = k2
      · rw [if_pos hq, if_pos hq]
      · rw [if_neg hq, if_neg hq, ih]

theorem storeInsert_changed_key (s : Store) (k q v : String) (t : Option Int)
    (h : storeLookup (storeInsert s k v t) q ≠ storeLookup s q) : q = k := by
  by_contra hq
  exact h (storeLookup_insert_ne s k q v t hq)

theorem storeErase_changed_key (s : Store) (k q : String)
    (h : storeLookup (storeErase s k) q ≠ storeLookup s q) : q = k := by
  by_contra hq
  exact h (storeLookup_erase_ne s k q hq)

/-! ### The healthy-transport normal form of the counter protocol -/

theorem svcSet_true_pos (s : Store) (k v : String) (window : Int)
    (hw : 1 ≤ window) :
    svcSet true s k v (some window) = .ok (storeInsert s k v (some window)) := by
  have h0 : ¬ window = 0 := by omega
  have hneg : ¬ window < 0 := by omega
  simp [svcSet, h0, hneg]

theorem svcRateLimit_true_body (s : Store) (key : String) (limit window : Int) :
    svcRateLimit true s key limit window =
      (match readCount s key with
      | none =>
        match svcSet true s key "NaN" (some window) with
        | .error e => .error e
        | .ok s2 => .ok (true, s2)
      | some c =>
        if limit ≤ c then .ok (false, s)
        else
          match svcSet true s key (intToString (c + 1)) (some window) with
          | .error e => .error e
          | .ok s2 => .ok (true, s2)) := rfl

theorem svcRateLimit_reject (s : Store) (key : String) (limit window c : Int)
    (hc : readCount s key = some c) (hl : limit ≤ c) :
    svcRateLimit true s key limit window = .ok (false, s) := by
  rw [svcRateLimit_true_body, hc]
  simp only []
  rw [if_pos hl]

theorem svcRateLimit_allow (s : Store) (key : String) (limit window c : Int)
    (hw : 1 ≤ window) (hc : readCount s key = some c) (hl : ¬ limit ≤ c) :
    svcRateLimit true s key limit window
      = .ok (true, storeInsert s key (intToString (c + 1)) (some window)) := by
  rw [svcRateLimit_true_body, hc]
  simp only []
  rw [if_neg hl, svcSet_true_pos s key _ window hw]

theorem svcRateLimit_nan (s : Store) (key : String) (limit window : Int)
    (hw : 1 ≤ window) (hc : readCount s key = none) :
    svcRateLimit true s key limit window
      = .ok (true, storeInsert s key "NaN" (some window)) := by
  rw [svcRateLimit_true_body, hc]
  simp only []
  rw [svcSet_true_pos s key _ window hw]

theorem jsParseInt_empty : jsParseInt "" = none := rfl

theorem readCount_absent (s : Store) (k : String) (h : storeLookup s k = none) :
    readCount s k = some 0 := by
  simp [readCount, h]

theorem readCount_stored (s : Store) (k v : String) (t : Option Int)
    (hv : storeLookup s k = some (v, t)) (hne : v ≠ "") :
    readCount s k = jsParseInt v := by
  simp [readCount, hv, hne]

theorem readCount_insert_int (s : Store) (k : String) (i : Int) (t : Option Int)
    (h : 0 ≤ i) : readCount (storeInsert s k (intToString i) t) k = some i := by
  simp [readCount, storeLookup_insert_self, intToString_ne_empty i,
    jsParseInt_intToString i h]

/-! ### Serial executions of the counter protocol -/

/-- `n` serial calls to `RedisService.rateLimit` on the same key: each call's
read and write complete before the next call starts.  Returns the list of
results in order (truncated if a call throws, which cannot happen on a
healthy transport with a positive window). -/
def serialCalls (up : Bool) (k : String) (limit window : Int) :
    Nat → Store → List Bool × Store
  | 0, s => ([], s)
  | n + 1, s =>
    match svcRateLimit up s k limit window with
    | .error _ => ([], s)
    | .ok (b, s2) =>
      let p := serialCalls up k limit window n s2
      (b :: p.1, p.2)

theorem serialCalls_succ (up : Bool) (k : String) (limit window : Int)
    (n : Nat) (s : Store) :
    serialCalls up k limit window (n + 1) s =
      match svcRateLimit up s k limit window with
      | .error _ => ([], s)
      | .ok (b, s2) =>
        (b :: (serialCalls up k limit window n s2).1,
          (serialCalls up k limit window n s2).2) := rfl

theorem serialCalls_run (k : String) (limit window : Int) (hw : 1 ≤ window) :
    ∀ (m : Nat) (s : Store) (j : Int), 0 ≤ j → readCount s k = some j →
    j + m = limit →
    (serialCalls true k limit window (m + 1) s).1
      = List.replicate m true ++ [false] := by
  intro m
  induction m with
  | zero =>
    intro s j hj hc hm
    have hl : limit ≤ j := by omega
    simp [serialCalls, svcRateLimit_reject s k limit window j hc hl]
  | succ m ih =>
    intro s j hj hc hm
    have hl : ¬ limit ≤ j := by omega
    have hadm := svcRateLimit_allow s k limit window j hw hc hl
    have hc2 : readCount (storeInsert s k (intToString (j + 1)) (some window)) k
        = some (j + 1) :=
      readCount_insert_int s k (j + 1) (some window) (by omega)
    rw [serialCalls_succ, hadm]
    simp only []
    rw [ih (storeInsert s k (intToString (j + 1)) (some window)) (j + 1)
      (by omega) hc2 (by omega)]
    simp [List.replicate_succ]

/-- Claim C1: for every `limit ≥ 1` and `window ≥ 1`, starting from a store
in which the counter key is absent and with the calls executed serially, the
first `limit` calls to `rateLimit(key, limit, window)` return `true` and the
`(limit+1)`-th call within the same window returns `false`. -/
theorem claim1_first_limit_admitted (limit window : Int) (k : String) (s : Store)
    (h1 : 1 ≤ limit) (hw : 1 ≤ window) (habs : storeLookup s k = none) :
    (serialCalls true k limit window (limit.toNat + 1) s).1
      = List.replicate limit.toNat true ++ [false] := by
  apply serialCalls_run k limit window hw limit.toNat s 0 le_rfl
    (readCount_absent s k habs)
  omega

theorem claim1_witness :
    (1 : Int) ≤ 2 ∧ (1 : Int) ≤ 60 ∧
      storeLookup ([] : Store) "rate_limit:1.2.3.4" = none ∧
      (serialCalls true "rate_limit:1.2.3.4" 2 60 ((2 : Int).toNat + 1) []).1
        = List.replicate (2 : Int).toNat true ++ [false] :=
  ⟨by decide, by decide, rfl,
    claim1_first_limit_admitted 2 60 "rate_limit:1.2.3.4" [] (by decide) (by decide) rfl⟩

/-- Claim C2: whenever the stored counter parses to a value at least `limit`,
`rateLimit` returns `false` and performs no write at all: the resulting store
is exactly the argument store, so the counter value and its remaining TTL
are untouched. -/
theorem claim2_reject_no_write (s : Store) (k : String) (limit window : Int)
    (v : String) (t : Option Int) (c : Int)
    (hv : storeLookup s k = some (v, t)) (hp : jsParseInt v = some c)
    (hl : limit ≤ c) :
    svcRateLimit true s k limit window = .ok (false, s) := by
  have hne : v ≠ "" := by
    intro he
    rw [he, jsParseInt_empty] at hp
    exact Option.noConfusion hp
  exact svcRateLimit_reject s k limit window c
    (by rw [readCount_stored s k v t hv hne, hp]) hl

theorem claim2_witness :
    storeLookup [("k", ("7", some 30))] "k" = some ("7", some 30) ∧
    jsParseInt "7" = some 7 ∧ (5 : Int) ≤ 7 ∧
    svcRateLimit true [("k", ("7", some 30))] "k" 5 60
      = .ok (false, [("k", ("7", some 30))]) :=
  ⟨rfl, rfl, by decide,
    claim2_reject_no_write [("k", ("7", some 30))] "k" 5 60 "7" (some 30) 7
      rfl rfl (by decide)⟩

/-- Claim C3: every admitted call (with a parseable counter and a positive
window) writes `value + 1` back under the key with the full window TTL
freshly applied, whatever TTL the key had before. -/
theorem claim3_ttl_rearmed (s : Store) (k : String) (limit window c : Int)
    (s2 : Store) (hw : 1 ≤ window) (hc : readCount s k = some c)
    (hres : svcRateLimit true s k limit window = .ok (true, s2)) :
    storeLookup s2 k = some (intToString (c + 1), some window) := by
  by_cases hl : limit ≤ c
  · rw [svcRateLimit_reject s k limit window c hc hl] at hres
    simp at hres
  · rw [svcRateLimit_allow s k limit window c hw hc hl] at hres
    simp only [Except.ok.injEq, Prod.mk.injEq, true_and] at hres
    rw [← hres]
    exact storeLookup_insert_self s k (intToString (c + 1)) (some window)

theorem claim3_witness :
    (1 : Int) ≤ 60 ∧ readCount [("k", ("1", some 7))] "k" = some 1 ∧
    svcRateLimit true [("k", ("1", some 7))] "k" 5 60
      = .ok (true, [("k", (intToString 2, some 60))]) ∧
    storeLookup [("k", (intToString 2, some 60))] "k"
      = some (intToString (1 + 1), some 60) :=
  ⟨by decide, rfl, rfl,
    claim3_ttl_rearmed [("k", ("1", some 7))] "k" 5 60 1
      [("k", (intToString 2, some 60))] (by decide) rfl rfl⟩

/-- Claim C10, counterexample: with `limit = 0 ≤ 0` and a stored value with
no leading digit, `parseInt` gives `NaN`, `NaN >= 0` is false, so the call is
admitted: it returns `true` and writes the string `"NaN"` with the window
TTL — the claim's `false`-and-no-write conclusion fails at this store. -/
theorem claim10_counterexample :
    svcRateLimit true [("k", ("abc", none))] "k" 0 60
      = .ok (true, [("k", ("NaN", some 60))]) := rfl

/-- Claim C10 as amended: with a non-positive `limit`, whenever the counter
key is absent, empty, or parses to a nonnegative count — in particular on a
fresh key — `rateLimit` returns `false` and performs no write, so no counter
record is ever created. -/
theorem claim10_amended_nonpositive_limit (s : Store) (k : String)
    (limit window c : Int) (hlim : limit ≤ 0)
    (hc : readCount s k = some c) (hnn : 0 ≤ c) :
    svcRateLimit true s k limit window = .ok (false, s) :=
  svcRateLimit_reject s k limit window c hc (by omega)

theorem claim10_witness :
    (0 : Int) ≤ 0 ∧ readCount ([] : Store) "k" = some 0 ∧ (0 : Int) ≤ 0 ∧
    svcRateLimit true [] "k" 0 60 = .ok (false, []) :=
  ⟨by decide, rfl, by decide,
    claim10_amended_nonpositive_limit [] "k" 0 60 0 (by decide) rfl (by decide)⟩

/-! ### Body normal forms for the middleware and session reads -/

theorem cacheRequest_body (up : Bool) (ttl : Int) (url : String) (produce : Json)
    (s : Store) :
    cacheRequest up ttl url produce s =
      (match svcGet up s ("cache:" ++ url) with
      | .error _ => ⟨produce, true, s⟩
      | .ok cached =>
        match cached with
        | some v =>
          if v = "" then
            match svcSet up s ("cache:" ++ url) (jsonStringify produce) (some ttl) with
            | .ok s2 => ⟨produce, true, s2⟩
            | .error _ => ⟨produce, true, s⟩
          else
            match jsonParse v with
            | some j => ⟨j, false, s⟩
            | none => ⟨produce, true, s⟩
        | none =>
          match svcSet up s ("cache:" ++ url) (jsonStringify produce) (some ttl) with
          | .ok s2 => ⟨produce, true, s2⟩
          | .error _ => ⟨produce, true, s⟩) := rfl

theorem getUserSession_body (up : Bool) (s : Store) (userId : String) :
    getUserSession up s userId =
      (match svcGet up s ("session:" ++ userId) with
      | .error e => .error e
      | .ok none => .ok none
      | .ok (some v) =>
        if v = "" then .ok none
        else
          match jsonParse v with
          | some j => .ok (some j)
          | none => .error "SyntaxError") := rfl

/-- Claim C4: when every store operation fails, the rate-limit middleware
admits every request (it answers `next`, never 429, and leaves the store
alone), and the cache middleware falls through to the wrapped handler
instead of failing the request (the handler runs and its response is
served). -/
theorem claim4_fail_open :
    (∀ (limit window : Int) (ip : String) (s : Store),
      rateLimitMW false limit window ip s = (.next, s)) ∧
    (∀ (ttl : Int) (url : String) (p : Json) (s : Store),
      cacheRequest false ttl url p s = ⟨p, true, s⟩) :=
  ⟨fun _ _ _ _ => rfl, fun _ _ _ _ => rfl⟩

theorem svcSet_true_nonneg (s : Store) (k v : String) (ttl : Int) (ht : 0 ≤ ttl) :
    svcSet true s k v (some ttl)
      = .ok (storeInsert s k v (if ttl = 0 then none else some ttl)) := by
  by_cases h0 : ttl = 0
  · subst h0
    simp [svcSet]
  · have hneg : ¬ ttl < 0 := by omega
    simp [svcSet, h0, hneg]

/-- Claim C5: two serial requests on the same cache key, starting from a
miss, invoke the wrapped handler exactly once; the first request runs the
handler and stores its response, the second observes a hit and serves the
stored response without running the handler. -/
theorem claim5_cache_single_invocation (ttl : Int) (url : String) (p1 p2 : Json)
    (s0 : Store) (ht : 0 ≤ ttl)
    (hmiss : storeLookup s0 ("cache:" ++ url) = none) :
    (cacheRequest true ttl url p1 s0).handlerRan = true ∧
    (cacheRequest true ttl url p1 s0).response = p1 ∧
    (cacheRequest true ttl url p2 (cacheRequest true ttl url p1 s0).store).handlerRan
      = false ∧
    (cacheRequest true ttl url p2 (cacheRequest true ttl url p1 s0).store).response
      = p1 := by
  have hget0 : svcGet true s0 ("cache:" ++ url) = .ok none := by
    simp [svcGet, hmiss]
  have hr1 : cacheRequest true ttl url p1 s0
      = ⟨p1, true, storeInsert s0 ("cache:" ++ url) (jsonStringify p1)
          (if ttl = 0 then none else some ttl)⟩ := by
    rw [cacheRequest_body, hget0]
    simp only []
    rw [svcSet_true_nonneg s0 _ _ ttl ht]
  have hget1 : svcGet true (storeInsert s0 ("cache:" ++ url) (jsonStringify p1)
      (if ttl = 0 then none else some ttl)) ("cache:" ++ url)
      = .ok (some (jsonStringify p1)) := by
    simp [svcGet, storeLookup_insert_self]
  have hr2 : cacheRequest true ttl url p2 (storeInsert s0 ("cache:" ++ url)
        (jsonStringify p1) (if ttl = 0 then none else some ttl))
      = ⟨p1, false, storeInsert s0 ("cache:" ++ url) (jsonStringify p1)
          (if ttl = 0 then none else some ttl)⟩ := by
    rw [cacheRequest_body, hget1]
    simp only []
    rw [if_neg (jsonStringify_ne_empty p1), jsonParse_stringify p1]
  simp [hr1, hr2]

theorem claim5_witness :
    (0 : Int) ≤ 300 ∧ storeLookup ([] : Store) ("cache:" ++ "/api/models") = none ∧
      ((cacheRequest true 300 "/api/models" (Json.num 1) []).handlerRan = true ∧
      (cacheRequest true 300 "/api/models" (Json.num 1) []).response = Json.num 1 ∧
      (cacheRequest true 300 "/api/models" (Json.num 2)
        ((cacheRequest true 300 "/api/models" (Json.num 1) []).store)).handlerRan
        = false ∧
      (cacheRequest true 300 "/api/models" (Json.num 2)
        ((cacheRequest true 300 "/api/models" (Json.num 1) []).store)).response
        = Json.num 1) :=
  ⟨by decide, rfl,
    claim5_cache_single_invocation 300 "/api/models" (Json.num 1) (Json.num 2) []
      (by decide) rfl⟩

/-- Claim C6: saving a session document and loading it immediately returns a
value equal to the document; after invalidation, loading returns absent
(`null`), not an error. -/
theorem claim6_session_roundtrip (s : Store) (id : String) (doc : Json)
    (ttl : Int) (ht : 0 < ttl) :
    cacheUserSession true s id doc ttl
        = .ok (storeInsert s ("session:" ++ id) (jsonStringify doc) (some ttl)) ∧
    getUserSession true
        (storeInsert s ("session:" ++ id) (jsonStringify doc) (some ttl)) id
        = .ok (some doc) ∧
    invalidateUserSession true
        (storeInsert s ("session:" ++ id) (jsonStringify doc) (some ttl)) id
        = .ok (storeErase
            (storeInsert s ("session:" ++ id) (jsonStringify doc) (some ttl))
            ("session:" ++ id)) ∧
    getUserSession true
        (storeErase (storeInsert s ("session:" ++ id) (jsonStringify doc) (some ttl))
          ("session:" ++ id)) id
        = .ok none := by
  refine ⟨?_, ?_, ?_, ?_⟩
  · exact svcSet_true_pos s _ _ ttl (by omega)
  · rw [getUserSession_body]
    rw [show svcGet true
        (storeInsert s ("session:" ++ id) (jsonStringify doc) (some ttl))
        ("session:" ++ id) = .ok (some (jsonStringify doc)) from by
      simp [svcGet, storeLookup_insert_self]]
    simp only []
    rw [if_neg (jsonStringify_ne_empty doc), jsonParse_stringify doc]
  · rfl
  · rw [getUserSession_body]
    rw [show svcGet true
        (storeErase (storeInsert s ("session:" ++ id) (jsonStringify doc) (some ttl))
          ("session:" ++ id)) ("session:" ++ id) = .ok none from by
      simp [svcGet, storeLookup_erase_self]]

theorem claim6_witness :
    (0 : Int) < 60 ∧
      (cacheUserSession true [] "u" (Json.str "hi") 60
          = .ok (storeInsert [] ("session:" ++ "u") (jsonStringify (Json.str "hi"))
              (some 60)) ∧
      getUserSession true
          (storeInsert [] ("session:" ++ "u") (jsonStringify (Json.str "hi")) (some 60))
          "u" = .ok (some (Json.str "hi")) ∧
      invalidateUserSession true
          (storeInsert [] ("session:" ++ "u") (jsonStringify (Json.str "hi")) (some 60))
          "u" = .ok (storeErase
            (storeInsert [] ("session:" ++ "u") (jsonStringify (Json.str "hi")) (some 60))
            ("session:" ++ "u")) ∧
      getUserSession true
          (storeErase
            (storeInsert [] ("session:" ++ "u") (jsonStringify (Json.str "hi")) (some 60))
            ("session:" ++ "u")) "u" = .ok none) :=
  ⟨by decide, claim6_session_roundtrip [] "u" (Json.str "hi") 60 (by decide)⟩

/-- Claim C7, counterexample: with the non-JSON string `"oops"` stored under
a session key, `getUserSession` does not return absent — its unguarded
`JSON.parse` throws, and the error propagates to the caller. -/
theorem claim7_counterexample :
    jsonParse "oops" = none ∧
    getUserSession true [("session:u", ("oops", none))] "u"
      = .error "SyntaxError" :=
  ⟨rfl, rfl⟩

/-- Claim C7 as amended: on an unparseable stored value, the cache
middleware's hit path catches the deserialization failure inside its own
try/catch and falls through to the handler without caching and without
aborting the pipeline; `getUserSession`, which has no try/catch, instead
propagates the deserialization error, and its caller the session middleware
catches it and continues without a session. -/
theorem claim7_amended :
    (∀ (ttl : Int) (url : String) (p : Json) (s : Store) (v : String)
        (t : Option Int),
      storeLookup s ("cache:" ++ url) = some (v, t) → v ≠ "" →
      jsonParse v = none → cacheRequest true ttl url p s = ⟨p, true, s⟩) ∧
    (∀ (s : Store) (id v : String) (t : Option Int),
      storeLookup s ("session:" ++ id) = some (v, t) → v ≠ "" →
      jsonParse v = none → getUserSession true s id = .error "SyntaxError") ∧
    (∀ (s : Store) (id v : String) (t : Option Int),
      storeLookup s ("session:" ++ id) = some (v, t) → v ≠ "" →
      jsonParse v = none → sessionMW true s (some id) = (.next, none)) := by
  refine ⟨?_, ?_, ?_⟩
  · intro ttl url p s v t hv hne hp
    rw [cacheRequest_body]
    rw [show svcGet true s ("cache:" ++ url) = .ok (some v) from by simp [svcGet, hv]]
    simp only []
    rw [if_neg hne, hp]
  · intro s id v t hv hne hp
    rw [getUserSession_body]
    rw [show svcGet true s ("session:" ++ id) = .ok (some v) from by
      simp [svcGet, hv]]
    simp only []
    rw [if_neg hne, hp]
  · intro s id v t hv hne hp
    have h2 : getUserSession true s id = .error "SyntaxError" := by
      rw [getUserSession_body]
      rw [show svcGet true s ("session:" ++ id) = .ok (some v) from by
        simp [svcGet, hv]]
      simp only []
      rw [if_neg hne, hp]
    simp [sessionMW, h2]

theorem claim7_witness :
    storeLookup [("cache:u", ("oops", none))] ("cache:" ++ "u")
        = some ("oops", none) ∧
    ("oops" : String) ≠ "" ∧ jsonParse "oops" = none ∧
    cacheRequest true 300 "u" Json.null [("cache:u", ("oops", none))]
        = ⟨Json.null, true, [("cache:u", ("oops", none))]⟩ ∧
    storeLookup [("session:u", ("oops", none))] ("session:" ++ "u")
        = some ("oops", none) ∧
    sessionMW true [("session:u", ("oops", none))] (some "u") = (.next, none) :=
  ⟨rfl, by decide, rfl,
    claim7_amended.1 300 "u" Json.null [("cache:u", ("oops", none))] "oops" none
      rfl (by decide) rfl,
    rfl,
    claim7_amended.2.2 [("session:u", ("oops", none))] "u" "oops" none
      rfl (by decide) rfl⟩

/-- Claim C8, counterexample: the factories accept non-positive
configuration values at setup time (they have no rejection path), and the
misbehavior then surfaces at request time — with `limit = 0` even the very
first request is answered 429. -/
theorem claim8_counterexample :
    rateLimitSetup 0 3600 = .ok (0, 3600) ∧
    apiRateLimitSetup 0 3600 = .ok (0, 3600) ∧
    cacheSetup (-5) = .ok (-5) ∧
    rateLimitMW true 0 3600 "1.2.3.4" [] = (.reject429, []) :=
  ⟨rfl, rfl, rfl, rfl⟩

/-- Claim C8 as amended: no setup-time validation exists — every
configuration, non-positive values included, is accepted by the
`rateLimit`, `apiRateLimit` and `cache` factories, and a non-positive limit
makes the rate-limit middleware reject every request at request time. -/
theorem claim8_amended_no_validation :
    (∀ limit window : Int, rateLimitSetup limit window = .ok (limit, window)) ∧
    (∀ limit window : Int, apiRateLimitSetup limit window = .ok (limit, window)) ∧
    (∀ ttl : Int, cacheSetup ttl = .ok ttl) ∧
    (∀ (limit window : Int) (ip : String), limit ≤ 0 →
      rateLimitMW true limit window ip [] = (.reject429, [])) := by
  refine ⟨fun _ _ => rfl, fun _ _ => rfl, fun _ => rfl, ?_⟩
  intro limit window ip hl
  have hc : readCount ([] : Store) ("rate_limit:" ++ ip) = some 0 := rfl
  have hrej := svcRateLimit_reject [] ("rate_limit:" ++ ip) limit window 0 hc hl
  unfold rateLimitMW
  rw [hrej]

theorem claim8_witness :
    (0 : Int) ≤ 0 ∧ rateLimitMW true 0 7200 "8.8.8.8" [] = (.reject429, []) :=
  ⟨by decide, claim8_amended_no_validation.2.2.2 0 7200 "8.8.8.8" (by decide)⟩

/-! ### Key namespaces -/

/-- Does `k` lie in the key namespace with the given leading string? -/
def keyInNs (p k : String) : Bool := p.data.isPrefixOf k.data

/-- The three namespaces the spec reserves for this core. -/
def reservedKey (k : String) : Bool :=
  keyInNs "rate_limit:" k || keyInNs "cache:" k || keyInNs "session:" k

/-- The reserved namespaces plus the `api_rate_limit:` namespace the API
rate-limit middleware actually uses. -/
def reservedKeyApi (k : String) : Bool :=
  reservedKey k || keyInNs "api_rate_limit:" k

theorem isPrefixOf_append_list (l m : List Char) : l.isPrefixOf (l ++ m) = true :=
  List.isPrefixOf_iff_prefix.mpr (List.prefix_append l m)

theorem keyInNs_append (p q : String) : keyInNs p (p ++ q) = true := by
  show p.data.isPrefixOf ((p ++ q).data) = true
  rw [show (p ++ q).data = p.data ++ q.data from rfl]
  exact isPrefixOf_append_list p.data q.data

/-! ### Which keys each component can touch -/

theorem svcSet_true_body (s : Store) (k v : String) (t : Option Int) :
    svcSet true s k v t =
      (match t with
      | none => .ok (storeInsert s k v none)
      | some tt =>
        if tt = 0 then .ok (storeInsert s k v none)
        else if tt < 0 then .error "ERR invalid expire time in setex"
        else .ok (storeInsert s k v (some tt))) := rfl

theorem svcSet_store (up : Bool) (s : Store) (k v : String) (t : Option Int)
    (s2 : Store) (h : svcSet up s k v t = .ok s2) :
    ∃ t2, s2 = storeInsert s k v t2 := by
  cases up with
  | false => exact absurd h (by simp [svcSet])
  | true =>
    rw [svcSet_true_body] at h
    cases t with
    | none =>
      simp only [Except.ok.injEq] at h
      exact ⟨none, h.symm⟩
    | some tt =>
      simp only [] at h
      by_cases h0 : tt = 0
      · rw [if_pos h0] at h
        simp only [Except.ok.injEq] at h
        exact ⟨none, h.symm⟩
      · rw [if_neg h0] at h
        by_cases hneg : tt < 0
        · rw [if_pos hneg] at h
          exact absurd h (by simp)
        · rw [if_neg hneg] at h
          simp only [Except.ok.injEq] at h
          exact ⟨some tt, h.symm⟩

theorem svcRateLimit_store (up : Bool) (s : Store) (key : String)
    (limit window : Int) (b : Bool) (s2 : Store)
    (h : svcRateLimit up s key limit window = .ok (b, s2)) :
    s2 = s ∨ ∃ v t2, s2 = storeInsert s key v t2 := by
  cases up with
  | false => exact absurd h (by simp [svcRateLimit, svcGet])
  | true =>
    rw [svcRateLimit_true_body] at h
    cases hrc : readCount s key with
    | none =>
      rw [hrc] at h
      simp only [] at h
      cases hset : svcSet true s key "NaN" (some window) with
      | error e =>
        rw [hset] at h
        exact absurd h (by simp)
      | ok s3 =>
        rw [hset] at h
        simp only [Except.ok.injEq, Prod.mk.injEq] at h
        obtain ⟨t2, h3⟩ := svcSet_store true s key "NaN" (some window) s3 hset
        right
        refine ⟨"NaN", t2, ?_⟩
        rw [← h.2]
        exact h3
    | some c =>
      rw [hrc] at h
      simp only [] at h
      by_cases hl : limit ≤ c
      · rw [if_pos hl] at h
        simp only [Except.ok.injEq, Prod.mk.injEq] at h
        exact Or.inl h.2.symm
      · rw [if_neg hl] at h
        cases hset : svcSet true s key (intToString (c + 1)) (some window) with
        | error e =>
          rw [hset] at h
          exact absurd h (by simp)
        | ok s3 =>
          rw [hset] at h
          simp only [Except.ok.injEq, Prod.mk.injEq] at h
          obtain ⟨t2, h3⟩ := svcSet_store true s key _ (some window) s3 hset
          right
          refine ⟨intToString (c + 1), t2, ?_⟩
          rw [← h.2]
          exact h3

theorem svcRateLimit_frame (up : Bool) (s : Store) (key : String)
    (limit window : Int) (b : Bool) (s2 : Store) (q : String)
    (hres : svcRateLimit up s key limit window = .ok (b, s2))
    (h : storeLookup s2 q ≠ storeLookup s q) : q = key := by
  rcases svcRateLimit_store up s key limit window b s2 hres with h2 | ⟨v, t2, h2⟩
  · rw [h2] at h
    exact absurd rfl h
  · rw [h2] at h
    exact storeInsert_changed_key s key q v t2 h

theorem rateLimitMW_frame (up : Bool) (limit window : Int) (ip : String)
    (s : Store) (q : String)
    (h : storeLookup (rateLimitMW up limit window ip s).2 q ≠ storeLookup s q) :
    q = "rate_limit:" ++ ip := by
  unfold rateLimitMW at h
  cases hres : svcRateLimit up s ("rate_limit:" ++ ip) limit window with
  | error e =>
    rw [hres] at h
    exact absurd rfl h
  | ok bs =>
    obtain ⟨b, s2⟩ := bs
    rw [hres] at h
    have h2 : storeLookup s2 q ≠ storeLookup s q := by
      cases b <;> exact h
    exact svcRateLimit_frame up s _ limit window b s2 q hres h2

theorem apiRateLimitMW_frame (up : Bool) (limit window : Int) (userId : String)
    (s : Store) (q : String)
    (h : storeLookup (apiRateLimitMW up limit window userId s).2 q
      ≠ storeLookup s q) :
    q = "api_rate_limit:" ++ userId := by
  unfold apiRateLimitMW at h
  cases hres : svcRateLimit up s ("api_rate_limit:" ++ userId) limit window with
  | error e =>
    rw [hres] at h
    exact absurd rfl h
  | ok bs =>
    obtain ⟨b, s2⟩ := bs
    rw [hres] at h
    have h2 : storeLookup s2 q ≠ storeLookup s q := by
      cases b <;> exact h
    exact svcRateLimit_frame up s _ limit window b s2 q hres h2

theorem cacheRequest_frame (up : Bool) (ttl : Int) (url : String) (p : Json)
    (s : Store) (q : String)
    (h : storeLookup (cacheRequest up ttl url p s).store q ≠ storeLookup s q) :
    q = "cache:" ++ url := by
  rw [cacheRequest_body] at h
  cases hget : svcGet up s ("cache:" ++ url) with
  | error e =>
    rw [hget] at h
    exact absurd rfl h
  | ok cached =>
    rw [hget] at h
    cases cached with
    | none =>
      cases hset : svcSet up s ("cache:" ++ url) (jsonStringify p) (some ttl) with
      | ok s3 =>
        rw [hset] at h
        obtain ⟨t2, h3⟩ := svcSet_store up s _ _ _ s3 hset
        rw [h3] at h
        exact storeInsert_changed_key s _ q _ t2 h
      | error e =>
        rw [hset] at h
        exact absurd rfl h
    | some v =>
      simp only [] at h
      by_cases hv : v = ""
      · rw [if_pos hv] at h
        cases hset : svcSet up s ("cache:" ++ url) (jsonStringify p) (some ttl) with
        | ok s3 =>
          rw [hset] at h
          obtain ⟨t2, h3⟩ := svcSet_store up s _ _ _ s3 hset
          rw [h3] at h
          exact storeInsert_changed_key s _ q _ t2 h
        | error e =>
          rw [hset] at h
          exact absurd rfl h
      · rw [if_neg hv] at h
        cases hp : jsonParse v with
        | some j =>
          rw [hp] at h
          exact absurd rfl h
        | none =>
          rw [hp] at h
          exact absurd rfl h

theorem invalidateCacheMW_frame (up : Bool) (pattern : String) (s : Store)
    (q : String)
    (h : storeLookup (invalidateCacheMW up pattern s).2 q ≠ storeLookup s q) :
    q = "cache:" ++ pattern := by
  cases up with
  | false => exact absurd rfl h
  | true =>
    have h2 : storeLookup (storeErase s ("cache:" ++ pattern)) q
        ≠ storeLookup s q := h
    exact storeErase_changed_key s _ q h2

theorem cacheUserSession_frame (up : Bool) (s : Store) (id : String) (doc : Json)
    (ttl : Int) (s2 : Store) (q : String)
    (hok : cacheUserSession up s id doc ttl = .ok s2)
    (h : storeLookup s2 q ≠ storeLookup s q) : q = "session:" ++ id := by
  obtain ⟨t2, h3⟩ := svcSet_store up s _ _ _ s2 hok
  rw [h3] at h
  exact storeInsert_changed_key s _ q _ t2 h

theorem invalidateUserSession_frame (up : Bool) (s : Store) (id : String)
    (s2 : Store) (q : String)
    (hok : invalidateUserSession up s id = .ok s2)
    (h : storeLookup s2 q ≠ storeLookup s q) : q = "session:" ++ id := by
  cases up with
  | false => exact absurd hok (by simp [invalidateUserSession, svcDel])
  | true =>
    have hb : invalidateUserSession true s id
        = .ok (storeErase s ("session:" ++ id)) := rfl
    rw [hb] at hok
    have h2 : s2 = storeErase s ("session:" ++ id) := (Except.ok.inj hok).symm
    rw [h2] at h
    exact storeErase_changed_key s _ q h

/-- Claim C9, counterexample: the API rate-limit middleware writes the key
`api_rate_limit:u1`, which lies in none of the three reserved namespaces
`rate_limit:`, `cache:`, `session:`. -/
theorem claim9_counterexample :
    storeLookup (apiRateLimitMW true 5 60 "u1" []).2 "api_rate_limit:u1"
        = some ("1", some 60) ∧
    storeLookup ([] : Store) "api_rate_limit:u1" = none ∧
    reservedKey "api_rate_limit:u1" = false :=
  ⟨rfl, rfl, rfl⟩

/-- Claim C9 as amended: every key written or deleted in the backing store
by the core components lies in one of the namespaces `rate_limit:`,
`cache:`, `session:`, or the `api_rate_limit:` namespace used by the API
rate-limit middleware; no operation touches a key outside these prefixes. -/
theorem claim9_amended_namespaces :
    (∀ (up : Bool) (limit window : Int) (ip : String) (s : Store) (q : String),
      storeLookup (rateLimitMW up limit window ip s).2 q ≠ storeLookup s q →
      reservedKeyApi q = true) ∧
    (∀ (up : Bool) (limit window : Int) (userId : String) (s : Store) (q : String),
      storeLookup (apiRateLimitMW up limit window userId s).2 q ≠ storeLookup s q →
      reservedKeyApi q = true) ∧
    (∀ (up : Bool) (ttl : Int) (url : String) (p : Json) (s : Store) (q : String),
      storeLookup (cacheRequest up ttl url p s).store q ≠ storeLookup s q →
      reservedKeyApi q = true) ∧
    (∀ (up : Bool) (pattern : String) (s : Store) (q : String),
      storeLookup (invalidateCacheMW up pattern s).2 q ≠ storeLookup s q →
      reservedKeyApi q = true) ∧
    (∀ (up : Bool) (s : Store) (id : String) (doc : Json) (ttl : Int) (s2 : Store)
        (q : String),
      cacheUserSession up s id doc ttl = .ok s2 →
      storeLookup s2 q ≠ storeLookup s q → reservedKeyApi q = true) ∧
    (∀ (up : Bool) (s : Store) (id : String) (s2 : Store) (q : String),
      invalidateUserSession up s id = .ok s2 →
      storeLookup s2 q ≠ storeLookup s q → reservedKeyApi q = true) := by
  refine ⟨?_, ?_, ?_, ?_, ?_, ?_⟩
  · intro up limit window ip s q h
    rw [rateLimitMW_frame up limit window ip s q h]
    simp [reservedKeyApi, reservedKey, keyInNs_append]
  · intro up limit window userId s q h
    rw [apiRateLimitMW_frame up limit window userId s q h]
    simp [reservedKeyApi, keyInNs_append]
  · intro up ttl url p s q h
    rw [cacheRequest_frame up ttl url p s q h]
    simp [reservedKeyApi, reservedKey, keyInNs_append]
  · intro up pattern s q h
    rw [invalidateCacheMW_frame up pattern s q h]
    simp [reservedKeyApi, reservedKey, keyInNs_append]
  · intro up s id doc ttl s2 q hok h
    rw [cacheUserSession_frame up s id doc ttl s2 q hok h]
    simp [reservedKeyApi, reservedKey, keyInNs_append]
  · intro up s id s2 q hok h
    rw [invalidateUserSession_frame up s id s2 q hok h]
    simp [reservedKeyApi, reservedKey, keyInNs_append]

theorem claim9_witness :
    (storeLookup (rateLimitMW true 5 60 "9.9.9.9" []).2 "rate_limit:9.9.9.9"
        ≠ storeLookup ([] : Store) "rate_limit:9.9.9.9") ∧
    reservedKeyApi "rate_limit:9.9.9.9" = true := by
  have hne : storeLookup (rateLimitMW true 5 60 "9.9.9.9" []).2 "rate_limit:9.9.9.9"
      ≠ storeLookup ([] : Store) "rate_limit:9.9.9.9" := by decide
  exact ⟨hne,
    claim9_amended_namespaces.1 true 5 60 "9.9.9.9" [] "rate_limit:9.9.9.9" hne⟩

end RedisCore
